import Mathlib

/-! # Verification of the Synapse vector engine

Shallow embedding of `.synapse/neo4j/vector_engine.py`: the TF-IDF
fallback embedding generator, the SQLite-backed vector store, the Redis
embedding cache, and the cosine similarity search, together with
theorems settling the specified properties.

Modelling conventions.  Python floats are ideal reals; a Python string
being tokenized is viewed through its character list; `np.ndarray`
blobs written with `tobytes` and read back with `np.frombuffer`
(dtype float64) round-trip exactly, so a stored blob is identified with
the stored list of reals.  Library hash functions (`hashlib.md5`,
`hashlib.sha256`) are pure and kept abstract as function parameters.
The nondeterministic `np.random.normal` draw is an explicit `noise`
parameter. -/

namespace VectorEngine

/-- `self.embedding_dim = 1024` (BGE-M3 output dimension, line 34). -/
def embedding_dim : ℕ := 1024

/-! ## Tokenization (`simple_tfidf_embedding`, lines 111-113) -/

/-- Helper for Python `str.split()` with no argument: split on runs of
whitespace, producing no empty words.  `acc` holds the current word
reversed. -/
def splitWsAux : List Char → List Char → List (List Char)
  | [], acc => if acc.isEmpty then [] else [acc.reverse]
  | c :: cs, acc =>
      if c.isWhitespace then
        if acc.isEmpty then splitWsAux cs [] else acc.reverse :: splitWsAux cs []
      else splitWsAux cs (c :: acc)

/-- Python `str.split()` on the character list of a string. -/
def pySplit (s : List Char) : List (List Char) := splitWsAux s []

/-- The characters of the strip set `'.,!?;:()[]\x7b\x7d'` (line 113). -/
def punctChars : List Char :=
  ['.', ',', '!', '?', ';', ':', '(', ')', '[', ']', '\x7b', '\x7d']

/-- Python `w.strip('.,!?;:()[]\x7b\x7d')`: remove characters of the set
from both ends. -/
def stripPunct (w : List Char) : List Char :=
  ((w.dropWhile (fun c => punctChars.contains c)).reverse.dropWhile
    (fun c => punctChars.contains c)).reverse

/-- Lines 112-113: `words = text.lower().split()` then
`words = [w.strip('.,!?;:()[]\x7b\x7d') for w in words if len(w) > 2]`
(the length filter applies to the word before stripping). -/
def tokenize (text : String) : List (List Char) :=
  let words := pySplit (text.data.map Char.toLower)
  (words.filter (fun w => decide (2 < w.length))).map stripPunct

/-! ## The fallback generator (`simple_tfidf_embedding`, lines 106-146) -/

/-- Lines 115-118: `self.vocabulary` is a dict word → index; each word
not yet present is appended with index `len(self.vocabulary)`.  The
table is written here and read nowhere else in the function. -/
def updateVocabulary (vocab : List (List Char × ℕ)) (words : List (List Char)) :
    List (List Char × ℕ) :=
  words.foldl
    (fun acc w => if (acc.lookup w).isSome then acc else acc ++ [(w, acc.length)])
    vocab

/-- Lines 129-132: the two hash-derived vector positions of a word.
`hash w` models `int(hashlib.md5(word.encode()).hexdigest(), 16)`. -/
def positions (hash : List Char → ℕ) (w : List Char) : List ℕ :=
  [hash w % embedding_dim, (hash w / embedding_dim) % embedding_dim]

/-- Lines 120-135: the term-frequency accumulation.  Starting from
`np.zeros(self.embedding_dim)`, for each distinct word with its count
the loop adds `count / len(words)` at each of its two hash positions.
The accumulation loop is rendered as the equivalent sum over distinct
words, the number of positions of `w` equal to `i` as multiplicity. -/
noncomputable def tf_vector (hash : List Char → ℕ) (words : List (List Char)) :
    Fin embedding_dim → ℝ := fun i =>
  ((words.dedup).map (fun w =>
    ((words.count w : ℝ) / (words.length : ℝ)) *
      (((positions hash w).count i.val : ℝ)))).sum

/-- `np.linalg.norm` on a dense `embedding_dim`-vector: the Euclidean
norm. -/
noncomputable def linalg_norm (v : Fin embedding_dim → ℝ) : ℝ :=
  Real.sqrt (∑ i, v i ^ 2)

/-- `simple_tfidf_embedding` (lines 106-146).  The injected
`np.random.normal(0, 0.01, dim)` draw is the explicit parameter
`noise`; the per-process vocabulary is threaded as state.  Lines
137-146: add the noise, then L2-normalize unless the norm is zero.
Returns the vector and the updated vocabulary. -/
noncomputable def simple_tfidf_embedding (hash : List Char → ℕ)
    (noise : Fin embedding_dim → ℝ) (vocab : List (List Char × ℕ)) (text : String) :
    (Fin embedding_dim → ℝ) × List (List Char × ℕ) :=
  let words := tokenize text
  let vocab2 := updateVocabulary vocab words
  let tfNoise := fun i => tf_vector hash words i + noise i
  let nrm := linalg_norm tfNoise
  (if 0 < nrm then fun i => tfNoise i / nrm else tfNoise, vocab2)

/-! ## The vector store (SQLite, `initialize_vector_store` lines 66-104)

Two tables.  `vector_metadata` declares `neo4j_node_id TEXT UNIQUE`, so
`INSERT OR REPLACE` on it deletes any conflicting row and appends the
new row (fresh rowid).  `vectors` declares `neo4j_node_id TEXT` with
only the non-unique index `idx_node_id` and no uniqueness constraint,
so `INSERT OR REPLACE INTO vectors` can never hit a conflict and is a
plain append.  Rows are kept in rowid (insertion) order. -/

/-- One row of `vector_metadata` (autoincrement id omitted; timestamps
are outside the claims). -/
structure MetadataRow where
  neo4j_node_id : String
  file_path : String
  content_hash : String
  embedding_model : String
  embedding_dim : ℕ

/-- One row of `vectors`: blob identified with the float64 list. -/
structure VectorRow where
  neo4j_node_id : String
  vector_data : List ℝ
  vector_norm : ℝ

/-- The persistent store: both tables in rowid order. -/
structure DB where
  metadata : List MetadataRow
  vectors : List VectorRow

/-- The freshly initialized store: both tables empty. -/
def initial_store : DB := ⟨[], []⟩

/-- `np.linalg.norm` on a decoded blob. -/
noncomputable def linalg_norm_list (v : List ℝ) : ℝ :=
  Real.sqrt ((v.map (fun x => x ^ 2)).sum)

/-- `np.dot` on two equal-length 1-D arrays (on unequal lengths NumPy
raises; all uses below are on equal lengths). -/
noncomputable def np_dot (x y : List ℝ) : ℝ :=
  (List.zipWith (fun a b => a * b) x y).sum

/-- `store_embedding` (lines 293-316): upsert the metadata row (UNIQUE
conflict deletes the old row, the new row is appended), then
`INSERT OR REPLACE INTO vectors` which, lacking any uniqueness
constraint to conflict with, appends a row with the blob and its
precomputed norm.  No check of `embedding.length` against
`embedding_dim` is performed anywhere.  `embedding_model` is the
engine's configured model string. -/
noncomputable def store_embedding (db : DB)
    (neo4j_node_id file_path content_hash : String)
    (embedding_model : String) (embedding : List ℝ) : DB :=
  { metadata :=
      (db.metadata.filter (fun m => !(m.neo4j_node_id == neo4j_node_id))) ++
        [⟨neo4j_node_id, file_path, content_hash, embedding_model, embedding_dim⟩],
    vectors :=
      db.vectors ++ [⟨neo4j_node_id, embedding, linalg_norm_list embedding⟩] }

/-- `get_embedding` (lines 318-332): `SELECT vector_data FROM vectors
WHERE neo4j_node_id = ?` then `fetchone()`.  The query scans the index
`idx_node_id`, whose entries with equal key are ordered by rowid, so
the first inserted matching row is returned; its blob is decoded back
to the stored list. -/
def get_embedding (db : DB) (neo4j_node_id : String) : Option (List ℝ) :=
  (db.vectors.find? (fun r => r.neo4j_node_id == neo4j_node_id)).map
    (fun r => r.vector_data)

/-- `similarity_search` (lines 334-366).  Zero query norm returns `[]`
before any scoring.  Otherwise: full scan of `vectors` in rowid order;
rows with positive norm get the cosine score, kept when at least
`min_similarity`; Python's stable `results.sort(key=..., reverse=True)`
is `mergeSort` under the ge-on-score relation; finally
`results[:top_k]` (`top_k` non-negative). -/
noncomputable def similarity_search (db : DB) (query_embedding : List ℝ)
    (top_k : ℕ) (min_similarity : ℝ) : List (String × ℝ) :=
  let query_norm := linalg_norm_list query_embedding
  if query_norm = 0 then []
  else
    let results := db.vectors.filterMap (fun r =>
      let stored_vector := r.vector_data
      let dot_product := np_dot query_embedding stored_vector
      let stored_norm := linalg_norm_list stored_vector
      if 0 < stored_norm then
        let similarity := dot_product / (query_norm * stored_norm)
        if min_similarity ≤ similarity then some (r.neo4j_node_id, similarity)
        else none
      else none)
    (results.mergeSort (fun a b => decide (b.2 ≤ a.2))).take top_k

/-- `get_stored_embeddings_count` (lines 368-375):
`SELECT COUNT(*) FROM vectors`. -/
def get_stored_embeddings_count (db : DB) : ℕ := db.vectors.length

/-- `clear_embeddings` (lines 404-413): `DELETE FROM vectors` and
`DELETE FROM vector_metadata`, unconditionally. -/
def clear_embeddings (_db : DB) : DB := ⟨[], []⟩

/-- The result of `get_embedding_stats`. -/
structure EmbeddingStats where
  by_model : List (String × ℕ)
  total_vectors : ℕ
  avg_vector_norm : ℝ

/-- `get_embedding_stats` (lines 377-402).  `GROUP BY embedding_model`
is rendered as the count per distinct model; `AVG(vector_norm)` is
`NULL` on an empty `vectors` table and `float(avg_norm) if avg_norm
else 0.0` maps a falsy average (`None`, or the value `0.0` which maps
to itself) to `0.0`. -/
noncomputable def get_embedding_stats (db : DB) : EmbeddingStats :=
  { by_model :=
      (db.metadata.map (fun m => m.embedding_model)).dedup.map
        (fun m => (m, (db.metadata.map (fun r => r.embedding_model)).count m)),
    total_vectors := db.vectors.length,
    avg_vector_norm :=
      if db.vectors.isEmpty then 0
      else ((db.vectors.map (fun r => r.vector_norm)).sum) / (db.vectors.length : ℝ) }

/-! ## The Redis embedding cache (lines 228-291)

The backend is modelled with a `broken` flag: a broken backend raises
on every call (covering both a connect failure and per-call failures);
the `try/except` blocks in the engine turn every raise into "absent"
(`get_cached_embedding`) or a no-op (`cache_embedding`).  An engine
whose construction-time ping failed holds `client = none`. -/

/-- The Redis connection state visible to the engine. -/
structure RedisBackend where
  broken : Bool
  entries : List (String × List ℝ)

/-- `redis.get`: raises when the backend is failing, else the stored
bytes (decoded float64 list) or absent. -/
def RedisBackend.get (c : RedisBackend) (k : String) : Except Unit (Option (List ℝ)) :=
  if c.broken then .error () else .ok (c.entries.lookup k)

/-- `redis.setex`: raises when the backend is failing, else writes the
entry (later lookups see the new value; the TTL bounds its lifetime and
plays no role in the claims below). -/
def RedisBackend.setex (c : RedisBackend) (k : String) (_ttl : ℕ) (v : List ℝ) :
    Except Unit RedisBackend :=
  if c.broken then .error () else .ok ⟨c.broken, (k, v) :: c.entries⟩

/-- `self.embedding_cache_ttl = 604800` (7 days, line 45). -/
def embedding_cache_ttl : ℕ := 604800

/-- `_get_embedding_cache_key` (lines 228-231):
`self.cache_prefix + model + ":" + sha256(text).hexdigest()[:16]`;
`sha256hex` models `hashlib.sha256(...).hexdigest()`, kept abstract. -/
def get_embedding_cache_key (sha256hex : String → String)
    (embedding_model text : String) : String :=
  "synapse:embedding:" ++ embedding_model ++ ":" ++ ((sha256hex text).take 16)

/-- `get_cached_embedding` (lines 233-249): `None` client is a miss;
any raise inside the `try` is swallowed (`pass`) and a miss; Python's
`if cached_data:` also treats an empty blob as falsy, hence a miss. -/
def get_cached_embedding (sha256hex : String → String) (client : Option RedisBackend)
    (embedding_model text : String) : Option (List ℝ) :=
  match client with
  | none => none
  | some c =>
    match c.get (get_embedding_cache_key sha256hex embedding_model text) with
    | .error _ => none
    | .ok none => none
    | .ok (some d) => if d.isEmpty then none else some d

/-- `cache_embedding` (lines 251-262): `None` client returns at once;
any raise from `setex` is swallowed, leaving the backend unchanged. -/
def cache_embedding (sha256hex : String → String) (client : Option RedisBackend)
    (embedding_model text : String) (embedding : List ℝ) : Option RedisBackend :=
  match client with
  | none => none
  | some c =>
    match c.setex (get_embedding_cache_key sha256hex embedding_model text)
        embedding_cache_ttl embedding with
    | .error _ => some c
    | .ok c2 => some c2

/-- `generate_embedding_cached` (lines 264-291): cache lookup, then on
a miss generate and store.  `gen` stands for `self.generate_embedding`
with the engine configuration fixed.  Returns the embedding and the
cache state after the call. -/
def generate_embedding_cached (sha256hex : String → String) (gen : String → List ℝ)
    (client : Option RedisBackend) (embedding_model text : String) :
    List ℝ × Option RedisBackend :=
  match get_cached_embedding sha256hex client embedding_model text with
  | some cached => (cached, client)
  | none =>
    let embedding := gen text
    (embedding, cache_embedding sha256hex client embedding_model text embedding)

/-! ## Helper lemmas -/

/-- A store step makes the stored vector retrievable for a node with no
prior row: `find?` over the appended row list reaches the new row. -/
theorem get_embedding_store_fresh (db : DB) (id fp ch model : String) (v : List ℝ)
    (h : get_embedding db id = none) :
    get_embedding (store_embedding db id fp ch model v) id = some v := by
  have h2 : db.vectors.find? (fun r => r.neo4j_node_id == id) = none := by
    simpa [get_embedding, Option.map_eq_none'] using h
  simp [get_embedding, store_embedding, List.find?_append, h2, List.find?]

theorem linalg_norm_nonneg (v : Fin embedding_dim → ℝ) : 0 ≤ linalg_norm v :=
  Real.sqrt_nonneg _

theorem linalg_norm_eq_zero_iff (v : Fin embedding_dim → ℝ) :
    linalg_norm v = 0 ↔ v = fun _ => 0 := by
  unfold linalg_norm
  rw [Real.sqrt_eq_zero']
  constructor
  · intro h
    have hsum : ∑ i, v i ^ 2 = 0 :=
      le_antisymm h (Finset.sum_nonneg fun i _ => sq_nonneg (v i))
    have hzero := (Finset.sum_eq_zero_iff_of_nonneg
      (fun i _ => sq_nonneg (v i))).mp hsum
    funext i
    exact pow_eq_zero_iff (two_ne_zero) |>.mp (hzero i (Finset.mem_univ i))
  · intro h
    rw [h]
    simp

theorem linalg_norm_pos (v : Fin embedding_dim → ℝ) (h : v ≠ fun _ => 0) :
    0 < linalg_norm v :=
  lt_of_le_of_ne (linalg_norm_nonneg v)
    (fun heq => h ((linalg_norm_eq_zero_iff v).mp heq.symm))

/-- L2 normalization of a non-zero vector has norm one. -/
theorem linalg_norm_normalize (v : Fin embedding_dim → ℝ) (h : v ≠ fun _ => 0) :
    linalg_norm (fun i => v i / linalg_norm v) = 1 := by
  have hc : 0 < linalg_norm v := linalg_norm_pos v h
  have hsq : linalg_norm v ^ 2 = ∑ i, v i ^ 2 :=
    Real.sq_sqrt (Finset.sum_nonneg fun i _ => sq_nonneg (v i))
  have hsum : ∑ i, (v i / linalg_norm v) ^ 2 = (∑ i, v i ^ 2) / linalg_norm v ^ 2 := by
    rw [Finset.sum_div]
    exact Finset.sum_congr rfl fun i _ => div_pow (v i) (linalg_norm v) 2
  rw [show linalg_norm (fun i => v i / linalg_norm v) =
      Real.sqrt (∑ i, (v i / linalg_norm v) ^ 2) from rfl]
  rw [hsum, ← hsq, div_self (by positivity), Real.sqrt_one]

/-! ## C1: dimension-mismatch handling in `store_embedding` -/

/-- C1 counterexample: `store_embedding` accepts a vector whose length
differs from `embedding_dim` and writes its record — the claim that the
store rejects such vectors and leaves prior state unchanged is false:
for the fresh node `"n"` a record is written and retrievable. -/
theorem store_embedding_wrong_dim_cex :
    [(1 : ℝ)].length ≠ embedding_dim ∧
      get_embedding initial_store "n" = none ∧
      get_embedding
        (store_embedding initial_store "n" "f" "h" "simple_tfidf" [(1 : ℝ)]) "n" =
        some [(1 : ℝ)] :=
  ⟨by decide, rfl, rfl⟩

/-- C1 amended: `store_embedding` performs no dimension check — a
vector of mismatched length is written like any other, and for a node
with no prior record it becomes retrievable via `get_embedding`. -/
theorem store_embedding_no_dim_check (db : DB) (id fp ch model : String) (v : List ℝ)
    (hlen : v.length ≠ embedding_dim) (h : get_embedding db id = none) :
    get_embedding (store_embedding db id fp ch model v) id = some v :=
  get_embedding_store_fresh db id fp ch model v h

theorem store_embedding_no_dim_check_witness :
    [(1 : ℝ)].length ≠ embedding_dim ∧
      get_embedding initial_store "m" = none ∧
      get_embedding
        (store_embedding initial_store "m" "f" "h" "simple_tfidf" [(1 : ℝ)]) "m" =
        some [(1 : ℝ)] :=
  ⟨by decide, rfl,
    store_embedding_no_dim_check initial_store "m" "f" "h" "simple_tfidf"
      [(1 : ℝ)] (by decide) rfl⟩

/-! ## C2: upsert uniqueness -/

/-- C2, code behavior at the failing input: storing `[1]` then `[2]`
under the same node id leaves TWO rows in the `vectors` table (the
`INSERT OR REPLACE` never conflicts, the table having no uniqueness
constraint on `neo4j_node_id`), and `get_embedding` returns the FIRST
vector `[1]`, not the second. -/
theorem store_embedding_double_store_behavior :
    ((store_embedding
        (store_embedding initial_store "n" "f" "h" "simple_tfidf" [(1 : ℝ)])
        "n" "f" "h" "simple_tfidf" [(2 : ℝ)]).vectors.countP
      (fun r => r.neo4j_node_id == "n")) = 2 ∧
    get_embedding
      (store_embedding
        (store_embedding initial_store "n" "f" "h" "simple_tfidf" [(1 : ℝ)])
        "n" "f" "h" "simple_tfidf" [(2 : ℝ)]) "n" = some [(1 : ℝ)] :=
  ⟨rfl, rfl⟩

/-! ## C3: normalization of the fallback generator -/

theorem tf_vector_nil (hash : List Char → ℕ) : tf_vector hash [] = fun _ => 0 := by
  funext i
  simp [tf_vector]

theorem tf_vector_nonneg (hash : List Char → ℕ) (words : List (List Char))
    (i : Fin embedding_dim) : 0 ≤ tf_vector hash words i := by
  apply List.sum_nonneg
  intro x hx
  obtain ⟨w, _, rfl⟩ := List.mem_map.mp hx
  have h1 : (0 : ℝ) ≤ (words.count w : ℝ) := Nat.cast_nonneg _
  have h2 : (0 : ℝ) ≤ (words.length : ℝ) := Nat.cast_nonneg _
  have h3 : (0 : ℝ) ≤ (((positions hash w).count i.val : ℕ) : ℝ) := Nat.cast_nonneg _
  exact mul_nonneg (div_nonneg h1 h2) h3

/-- With at least one word, the term-frequency vector is strictly
positive at the first hash position of the first word. -/
theorem tf_vector_head_pos (hash : List Char → ℕ) (words : List (List Char))
    (hw : words ≠ []) (i : Fin embedding_dim)
    (hi : i.val = hash (words.head hw) % embedding_dim) :
    0 < tf_vector hash words i := by
  have hmem : words.head hw ∈ words := List.head_mem hw
  have hmemd : words.head hw ∈ words.dedup := List.mem_dedup.mpr hmem
  have hterm : (0 : ℝ) <
      ((words.count (words.head hw) : ℝ) / (words.length : ℝ)) *
        (((positions hash (words.head hw)).count i.val : ℕ) : ℝ) := by
    have hcount : 0 < words.count (words.head hw) := List.count_pos_iff.mpr hmem
    have hlen : 0 < words.length := List.length_pos.mpr hw
    have hposmem : i.val ∈ positions hash (words.head hw) := by
      rw [hi, positions]
      exact List.mem_cons_self _ _
    have hpc : 0 < (positions hash (words.head hw)).count i.val :=
      List.count_pos_iff.mpr hposmem
    have h1 : (0 : ℝ) < (words.count (words.head hw) : ℝ) := by exact_mod_cast hcount
    have h2 : (0 : ℝ) < (words.length : ℝ) := by exact_mod_cast hlen
    have h3 : (0 : ℝ) < (((positions hash (words.head hw)).count i.val : ℕ) : ℝ) := by
      exact_mod_cast hpc
    exact mul_pos (div_pos h1 h2) h3
  have hle : ((words.count (words.head hw) : ℝ) / (words.length : ℝ)) *
      (((positions hash (words.head hw)).count i.val : ℕ) : ℝ) ≤
        tf_vector hash words i := by
    apply List.single_le_sum
    · intro x hx
      obtain ⟨w, _, rfl⟩ := List.mem_map.mp hx
      exact mul_nonneg (div_nonneg (Nat.cast_nonneg _) (Nat.cast_nonneg _))
        (Nat.cast_nonneg _)
    · exact List.mem_map_of_mem _ hmemd
  exact lt_of_lt_of_le hterm hle

/-- C3 counterexample: `""` yields no scorable tokens, yet with a
non-zero noise draw (here the constant-one vector, standing for the
almost-surely non-zero `np.random.normal` sample) the generator does
NOT return the all-zero vector: the noise itself is normalized and
returned. -/
theorem simple_tfidf_no_token_cex :
    tokenize "" = [] ∧
      (simple_tfidf_embedding (fun _ => 0) (fun _ => (1 : ℝ)) [] "").1 ≠ fun _ => 0 := by
  refine ⟨rfl, ?_⟩
  intro heq
  have ht : tokenize "" = [] := rfl
  have hfst : (simple_tfidf_embedding (fun _ => 0) (fun _ => (1 : ℝ)) [] "").1 =
      (if 0 < linalg_norm
          (fun i => tf_vector (fun _ => 0) (tokenize "") i + (fun _ => (1 : ℝ)) i) then
        fun i => (fun i => tf_vector (fun _ => 0) (tokenize "") i + (fun _ => (1 : ℝ)) i) i /
          linalg_norm (fun i => tf_vector (fun _ => 0) (tokenize "") i + (fun _ => (1 : ℝ)) i)
      else fun i => tf_vector (fun _ => 0) (tokenize "") i + (fun _ => (1 : ℝ)) i) := rfl
  have hu1 : (fun i => tf_vector (fun _ => 0) (tokenize "") i + (fun _ => (1 : ℝ)) i) =
      fun _ : Fin embedding_dim => (1 : ℝ) := by
    funext i
    show tf_vector (fun _ => 0) (tokenize "") i + (1 : ℝ) = 1
    rw [ht]
    simp [tf_vector_nil]
  rw [hfst, hu1] at heq
  have hne : (fun _ : Fin embedding_dim => (1 : ℝ)) ≠ fun _ => 0 := by
    intro h
    exact one_ne_zero (congrFun h ⟨0, by norm_num [embedding_dim]⟩)
  have hpos : 0 < linalg_norm (fun _ : Fin embedding_dim => (1 : ℝ)) :=
    linalg_norm_pos _ hne
  rw [if_pos hpos] at heq
  have h0 := congrFun heq ⟨0, by norm_num [embedding_dim]⟩
  simp only at h0
  rcases div_eq_zero_iff.mp h0 with h | h
  · exact one_ne_zero h
  · exact (ne_of_gt hpos) h

/-- C3 amended: the generator returns the all-zero vector exactly when
the pre-normalization vector (term frequencies plus noise) is zero, and
a unit-norm vector otherwise.  With the noise fixed at zero this
specializes to the claim as written: a text with no scorable tokens
yields the all-zero vector, and any other text yields norm 1; with a
non-zero noise draw a no-token text instead yields the normalized noise
vector. -/
theorem simple_tfidf_normalization (hash : List Char → ℕ)
    (noise : Fin embedding_dim → ℝ) (vocab : List (List Char × ℕ)) (text : String) :
    (((fun i => tf_vector hash (tokenize text) i + noise i) = fun _ => 0) →
        (simple_tfidf_embedding hash noise vocab text).1 = fun _ => 0) ∧
    (((fun i => tf_vector hash (tokenize text) i + noise i) ≠ fun _ => 0) →
        linalg_norm (simple_tfidf_embedding hash noise vocab text).1 = 1) ∧
    (noise = (fun _ => 0) → tokenize text = [] →
        (simple_tfidf_embedding hash noise vocab text).1 = fun _ => 0) ∧
    (noise = (fun _ => 0) → tokenize text ≠ [] →
        linalg_norm (simple_tfidf_embedding hash noise vocab text).1 = 1) := by
  have hfst : (simple_tfidf_embedding hash noise vocab text).1 =
      (if 0 < linalg_norm (fun i => tf_vector hash (tokenize text) i + noise i) then
        fun i => (fun i => tf_vector hash (tokenize text) i + noise i) i /
          linalg_norm (fun i => tf_vector hash (tokenize text) i + noise i)
      else fun i => tf_vector hash (tokenize text) i + noise i) := rfl
  have hzero : ((fun i => tf_vector hash (tokenize text) i + noise i) = fun _ => 0) →
      (simple_tfidf_embedding hash noise vocab text).1 = fun _ => 0 := by
    intro h
    rw [hfst, h]
    have hn0 : linalg_norm (fun _ : Fin embedding_dim => (0 : ℝ)) = 0 :=
      (linalg_norm_eq_zero_iff _).mpr rfl
    rw [hn0]
    simp
  have hone : ((fun i => tf_vector hash (tokenize text) i + noise i) ≠ fun _ => 0) →
      linalg_norm (simple_tfidf_embedding hash noise vocab text).1 = 1 := by
    intro h
    rw [hfst, if_pos (linalg_norm_pos _ h)]
    exact linalg_norm_normalize _ h
  refine ⟨hzero, hone, ?_, ?_⟩
  · intro hn ht
    apply hzero
    funext i
    rw [ht, hn]
    simp [tf_vector_nil]
  · intro hn ht
    apply hone
    intro heq
    have hpos := tf_vector_head_pos hash (tokenize text) ht
      ⟨hash ((tokenize text).head ht) % embedding_dim,
        Nat.mod_lt _ (by norm_num [embedding_dim])⟩ rfl
    have h0 := congrFun heq ⟨hash ((tokenize text).head ht) % embedding_dim,
      Nat.mod_lt _ (by norm_num [embedding_dim])⟩
    rw [hn] at h0
    simp only at h0
    rw [add_zero] at h0
    exact (ne_of_gt hpos) h0

theorem simple_tfidf_normalization_witness :
    tokenize "hello" ≠ [] ∧
      linalg_norm
        (simple_tfidf_embedding (fun _ => 0) (fun _ => (0 : ℝ)) [] "hello").1 = 1 :=
  ⟨by decide,
    (simple_tfidf_normalization (fun _ => 0) (fun _ => 0) [] "hello").2.2.2
      rfl (by decide)⟩

/-! ## C5: zero-norm query short-circuit -/

/-- C5: `similarity_search` on a query of zero Euclidean norm returns
the empty list, whatever the store contents; the query-norm guard fires
before any division. -/
theorem similarity_search_zero_query (db : DB) (q : List ℝ) (top_k : ℕ)
    (min_similarity : ℝ) (h : linalg_norm_list q = 0) :
    similarity_search db q top_k min_similarity = [] := by
  unfold similarity_search
  simp [h]

theorem similarity_search_zero_query_witness :
    linalg_norm_list [(0 : ℝ)] = 0 ∧
      similarity_search ⟨[], [⟨"a", [(1 : ℝ)], 1⟩]⟩ [(0 : ℝ)] 5 0 = [] := by
  have h : linalg_norm_list [(0 : ℝ)] = 0 := by
    simp [linalg_norm_list]
  exact ⟨h, similarity_search_zero_query ⟨[], [⟨"a", [(1 : ℝ)], 1⟩]⟩ [(0 : ℝ)] 5 0 h⟩

/-! ## C4: similarity-search contract -/

/-- C4: for a non-zero query over a well-formed store (stored vectors
of the query's length, as NumPy's `dot` requires), the search returns
at most `top_k` pairs, sorted by descending score, and every returned
pair carries a score at least `min_similarity` that is the cosine
similarity of the query with some stored record of positive norm;
zero-norm records contribute nothing. -/
theorem similarity_search_contract (db : DB) (q : List ℝ) (top_k : ℕ)
    (min_similarity : ℝ) (hq : linalg_norm_list q ≠ 0)
    (hwf : ∀ r ∈ db.vectors, r.vector_data.length = q.length) :
    (similarity_search db q top_k min_similarity).length ≤ top_k ∧
    List.Sorted (fun a b : String × ℝ => a.2 ≥ b.2)
      (similarity_search db q top_k min_similarity) ∧
    ∀ p ∈ similarity_search db q top_k min_similarity,
      min_similarity ≤ p.2 ∧
      ∃ r ∈ db.vectors, p.1 = r.neo4j_node_id ∧
        0 < linalg_norm_list r.vector_data ∧
        p.2 = np_dot q r.vector_data /
          (linalg_norm_list q * linalg_norm_list r.vector_data) := by
  clear hwf
  have hres : similarity_search db q top_k min_similarity =
      ((db.vectors.filterMap (fun r =>
        if 0 < linalg_norm_list r.vector_data then
          if min_similarity ≤ np_dot q r.vector_data /
              (linalg_norm_list q * linalg_norm_list r.vector_data) then
            some (r.neo4j_node_id,
              np_dot q r.vector_data /
                (linalg_norm_list q * linalg_norm_list r.vector_data))
          else none
        else none)).mergeSort
        (fun a b : String × ℝ => decide (b.2 ≤ a.2))).take top_k := by
    unfold similarity_search
    rw [if_neg hq]
  rw [hres]
  refine ⟨?_, ?_, ?_⟩
  · rw [List.length_take]
    exact min_le_left _ _
  · have htrans : ∀ a b c : String × ℝ,
        (fun a b : String × ℝ => decide (b.2 ≤ a.2)) a b = true →
        (fun a b : String × ℝ => decide (b.2 ≤ a.2)) b c = true →
        (fun a b : String × ℝ => decide (b.2 ≤ a.2)) a c = true := by
      intro a b c hab hbc
      simp only [decide_eq_true_iff] at hab hbc ⊢
      exact le_trans hbc hab
    have htot : ∀ a b : String × ℝ,
        ((fun a b : String × ℝ => decide (b.2 ≤ a.2)) a b ||
          (fun a b : String × ℝ => decide (b.2 ≤ a.2)) b a) = true := by
      intro a b
      simp only [Bool.or_eq_true, decide_eq_true_iff]
      exact le_total b.2 a.2
    have hs := List.sorted_mergeSort htrans htot
      (db.vectors.filterMap (fun r =>
        if 0 < linalg_norm_list r.vector_data then
          if min_similarity ≤ np_dot q r.vector_data /
              (linalg_norm_list q * linalg_norm_list r.vector_data) then
            some (r.neo4j_node_id,
              np_dot q r.vector_data /
                (linalg_norm_list q * linalg_norm_list r.vector_data))
          else none
        else none))
    have hs2 : List.Pairwise (fun a b : String × ℝ => a.2 ≥ b.2)
        ((db.vectors.filterMap (fun r =>
          if 0 < linalg_norm_list r.vector_data then
            if min_similarity ≤ np_dot q r.vector_data /
                (linalg_norm_list q * linalg_norm_list r.vector_data) then
              some (r.neo4j_node_id,
                np_dot q r.vector_data /
                  (linalg_norm_list q * linalg_norm_list r.vector_data))
            else none
          else none)).mergeSort
          (fun a b : String × ℝ => decide (b.2 ≤ a.2))) := by
      refine hs.imp ?_
      intro a b h
      simpa [decide_eq_true_iff] using h
    exact List.Pairwise.sublist (List.take_sublist _ _) hs2
  · intro p hp
    have hp1 := List.Sublist.mem hp (List.take_sublist _ _)
    have hp2 := (List.mergeSort_perm _ _).mem_iff.mp hp1
    obtain ⟨r, hr, hfr⟩ := List.mem_filterMap.mp hp2
    by_cases h1 : 0 < linalg_norm_list r.vector_data
    · rw [if_pos h1] at hfr
      by_cases h2 : min_similarity ≤ np_dot q r.vector_data /
          (linalg_norm_list q * linalg_norm_list r.vector_data)
      · rw [if_pos h2] at hfr
        obtain rfl := Option.some.inj hfr
        exact ⟨h2, r, hr, rfl, h1, rfl⟩
      · rw [if_neg h2] at hfr
        exact absurd hfr (by simp)
    · rw [if_neg h1] at hfr
      exact absurd hfr (by simp)

theorem similarity_search_contract_witness :
    linalg_norm_list [(1 : ℝ)] ≠ 0 ∧
      (∀ r ∈ (⟨[], [⟨"a", [(1 : ℝ)], 1⟩]⟩ : DB).vectors,
        r.vector_data.length = [(1 : ℝ)].length) ∧
      ((similarity_search ⟨[], [⟨"a", [(1 : ℝ)], 1⟩]⟩ [(1 : ℝ)] 5 0).length ≤ 5 ∧
       List.Sorted (fun a b : String × ℝ => a.2 ≥ b.2)
         (similarity_search ⟨[], [⟨"a", [(1 : ℝ)], 1⟩]⟩ [(1 : ℝ)] 5 0) ∧
       ∀ p ∈ similarity_search ⟨[], [⟨"a", [(1 : ℝ)], 1⟩]⟩ [(1 : ℝ)] 5 0,
         (0 : ℝ) ≤ p.2 ∧
         ∃ r ∈ (⟨[], [⟨"a", [(1 : ℝ)], 1⟩]⟩ : DB).vectors, p.1 = r.neo4j_node_id ∧
           0 < linalg_norm_list r.vector_data ∧
           p.2 = np_dot [(1 : ℝ)] r.vector_data /
             (linalg_norm_list [(1 : ℝ)] * linalg_norm_list r.vector_data)) := by
  have hq : linalg_norm_list [(1 : ℝ)] ≠ 0 := by
    simp [linalg_norm_list]
  have hwf : ∀ r ∈ (⟨[], [⟨"a", [(1 : ℝ)], 1⟩]⟩ : DB).vectors,
      r.vector_data.length = [(1 : ℝ)].length := by
    intro r hr
    simp only [List.mem_singleton] at hr
    subst hr
    rfl
  exact ⟨hq, hwf,
    similarity_search_contract ⟨[], [⟨"a", [(1 : ℝ)], 1⟩]⟩ [(1 : ℝ)] 5 0 hq hwf⟩

/-! ## C6: round-trip storage -/

/-- C6: for a node with no prior record, the vector stored under it is
returned exactly by `get_embedding` (the blob encode/decode round-trip
is exact for float64 data). -/
theorem store_get_roundtrip (db : DB) (id fp ch model : String) (v : List ℝ)
    (h : get_embedding db id = none) :
    get_embedding (store_embedding db id fp ch model v) id = some v :=
  get_embedding_store_fresh db id fp ch model v h

theorem store_get_roundtrip_witness :
    get_embedding initial_store "n" = none ∧
      get_embedding
        (store_embedding initial_store "n" "f" "h" "simple_tfidf"
          [(1 : ℝ), (2 : ℝ)]) "n" = some [(1 : ℝ), (2 : ℝ)] :=
  ⟨rfl,
    store_get_roundtrip initial_store "n" "f" "h" "simple_tfidf"
      [(1 : ℝ), (2 : ℝ)] rfl⟩

/-! ## C7: cache bypass under failure -/

/-- C7: with the cache backend disabled (`client = none`, the
construction-time ping failed) or failing on every call (`broken`),
`generate_embedding_cached` returns exactly what `generate_embedding`
returns on that text; the caught cache errors change no returned
value. -/
theorem generate_embedding_cached_bypass (sha256hex : String → String)
    (gen : String → List ℝ) (client : Option RedisBackend)
    (embedding_model text : String)
    (h : client = none ∨ ∃ c, client = some c ∧ c.broken = true) :
    (generate_embedding_cached sha256hex gen client embedding_model text).1 =
      gen text := by
  rcases h with h | ⟨c, rfl, hb⟩
  · subst h
    rfl
  · simp [generate_embedding_cached, get_cached_embedding, RedisBackend.get, hb]

theorem generate_embedding_cached_bypass_witness :
    ((some (⟨true, []⟩ : RedisBackend) = none ∨
        ∃ c, some (⟨true, []⟩ : RedisBackend) = some c ∧ c.broken = true) ∧
      (generate_embedding_cached (fun _ => "") (fun _ => [(1 : ℝ)])
        (some ⟨true, []⟩) "simple_tfidf" "t").1 = [(1 : ℝ)]) :=
  ⟨Or.inr ⟨⟨true, []⟩, rfl, rfl⟩,
    generate_embedding_cached_bypass (fun _ => "") (fun _ => [(1 : ℝ)])
      (some ⟨true, []⟩) "simple_tfidf" "t" (Or.inr ⟨⟨true, []⟩, rfl, rfl⟩)⟩

/-! ## C8: vocabulary noninterference -/

/-- C8: with the same hash and the same fixed noise, the fallback
generator returns the same vector no matter the accumulated vocabulary
state — the output vector never reads the word→index table. -/
theorem simple_tfidf_vocabulary_noninterference (hash : List Char → ℕ)
    (noise : Fin embedding_dim → ℝ) (text : String)
    (vocab1 vocab2 : List (List Char × ℕ)) :
    (simple_tfidf_embedding hash noise vocab1 text).1 =
      (simple_tfidf_embedding hash noise vocab2 text).1 := rfl

/-! ## C9: clear is total -/

/-- C9: after `clear_embeddings` the count is zero and every
`get_embedding` (in particular for every node that had a record)
returns absent. -/
theorem clear_embeddings_total (db : DB) :
    get_stored_embeddings_count (clear_embeddings db) = 0 ∧
      ∀ id : String, get_embedding (clear_embeddings db) id = none :=
  ⟨rfl, fun _ => rfl⟩

/-! ## C10: stats on the empty store -/

/-- C10: on a store with no records, `get_embedding_stats` reports zero
total vectors, an empty per-model map, and an average norm of `0.0`
(the `NULL` average is mapped to `0.0`, never absent or an error). -/
theorem get_embedding_stats_empty (db : DB) (hm : db.metadata = [])
    (hv : db.vectors = []) :
    (get_embedding_stats db).total_vectors = 0 ∧
      (get_embedding_stats db).by_model = [] ∧
      (get_embedding_stats db).avg_vector_norm = 0 := by
  obtain ⟨m, v⟩ := db
  simp only at hm hv
  subst hm
  subst hv
  refine ⟨rfl, rfl, ?_⟩
  simp [get_embedding_stats]

theorem get_embedding_stats_empty_witness :
    initial_store.metadata = [] ∧ initial_store.vectors = [] ∧
      (get_embedding_stats initial_store).total_vectors = 0 ∧
      (get_embedding_stats initial_store).by_model = [] ∧
      (get_embedding_stats initial_store).avg_vector_norm = 0 :=
  ⟨rfl, rfl, get_embedding_stats_empty initial_store rfl rfl⟩

end VectorEngine
